import Mathlib

/-!
# Verification of the RippyFish IIIF tile download-and-composite engine

A shallow embedding of `src/rippyfish.py` (class `IIIFImageDownloader`) and
proofs about it.  Python integers are modelled as `Nat`/`Int`, PIL images as
records carrying their dimensions and a pixel function, fallible code as
`Except`/`Option`, and the network as explicit fetch-outcome parameters.
-/

deriving instance DecidableEq for Except

namespace RippyFish

/-- An RGB colour triple, as used by PIL `'RGB'` images. -/
abbrev Pixel := Nat × Nat × Nat

/-- The background fill used at rippyfish.py line 218: `(255, 255, 255)`. -/
def white : Pixel := (255, 255, 255)

/-- Ceiling division: the exact integer value of Python `math.ceil(a / b)`
for naturals `a` and positive `b`. -/
def ceilDiv (a b : Nat) : Nat := (a + b - 1) / b

/-- Model of `calculate_tile_grid` (rippyfish.py lines 124-138): the number of tiles
needed in each dimension, `(math.ceil(width / tile_size), math.ceil(height / tile_size))`. -/
def calculate_tile_grid (width height tile_size : Nat) : Nat × Nat :=
  (ceilDiv width tile_size, ceilDiv height tile_size)

/-- An axis-aligned rectangle of pixels, `[x, x+w) × [y, y+h)`. -/
structure Rect where
  x : Nat
  y : Nat
  w : Nat
  h : Nat
deriving DecidableEq

/-- The region computed for grid cell `(tx, ty)` at rippyfish.py lines 227-230:
`x = tx*tile_size`, `y = ty*tile_size`, `w = min(tile_size, width - x)`,
`h = min(tile_size, height - y)`. -/
def tileRect (width height tile_size tx ty : Nat) : Rect :=
  { x := tx * tile_size
    y := ty * tile_size
    w := min tile_size (width - tx * tile_size)
    h := min tile_size (height - ty * tile_size) }

/-- Membership of the pixel coordinate `(px, py)` in a rectangle. -/
def inRect (r : Rect) (px py : Nat) : Prop :=
  r.x ≤ px ∧ px < r.x + r.w ∧ r.y ≤ py ∧ py < r.y + r.h

instance (r : Rect) (px py : Nat) : Decidable (inRect r px py) := by
  unfold inRect; infer_instance

/-- One-dimensional core of the grid geometry: a coordinate `px` lies in the
clipped span of column `tx` exactly when `tx` is `px / ts` and `px` is inside
the image. -/
theorem span_mem_iff {ts : Nat} (hts : 0 < ts) (tx px w : Nat) :
    (tx * ts ≤ px ∧ px < tx * ts + min ts (w - tx * ts)) ↔ (tx = px / ts ∧ px < w) := by
  constructor
  · rintro ⟨h1, h2⟩
    have hpw : px < w := by omega
    refine ⟨?_, hpw⟩
    have h3 : px < tx * ts + ts := by omega
    exact (Nat.div_eq_of_lt_le h1 (by rw [Nat.add_mul, Nat.one_mul]; omega)).symm
  · rintro ⟨htx, hpw⟩
    subst htx
    have h1 : px / ts * ts ≤ px := Nat.div_mul_le_self px ts
    have h2 : ts * (px / ts) + px % ts = px := Nat.div_add_mod px ts
    have h3 : px % ts < ts := Nat.mod_lt px hts
    rw [Nat.mul_comm] at h2
    omega

/-- Any in-bounds coordinate determines a valid column index `px / ts`
strictly below the ceiling-division tile count. -/
theorem div_lt_ceilDiv {ts : Nat} (hts : 0 < ts) {px w : Nat} (hpx : px < w) :
    px / ts < ceilDiv w ts := by
  unfold ceilDiv
  have h1 : w + ts - 1 = (w - 1) + ts := by omega
  rw [h1, Nat.add_div_right _ hts]
  have h2 : px / ts ≤ (w - 1) / ts := Nat.div_le_div_right (by omega)
  omega

/-- A valid column index starts strictly inside the image. -/
theorem mul_lt_of_lt_ceilDiv {ts : Nat} (hts : 0 < ts) {tx w : Nat}
    (htx : tx < ceilDiv w ts) : tx * ts < w := by
  unfold ceilDiv at htx
  rcases Nat.eq_zero_or_pos w with hw | hw
  · subst hw
    have h0 : (0 + ts - 1) / ts = 0 := Nat.div_eq_of_lt (by omega)
    omega
  · have h1 : w + ts - 1 = (w - 1) + ts := by omega
    rw [h1, Nat.add_div_right _ hts] at htx
    have h2 : tx * ts ≤ (w - 1) / ts * ts := Nat.mul_le_mul_right ts (by omega)
    have h3 : (w - 1) / ts * ts ≤ w - 1 := Nat.div_mul_le_self _ _
    omega

/-- Two-dimensional characterisation: the pixel `(px, py)` lies in the tile
rectangle of a valid grid cell `(tx, ty)` exactly when `(tx, ty) = (px / ts, py / ts)`
and the pixel is inside the image. -/
theorem mem_tileRect_iff {w h ts : Nat} (hts : 0 < ts) {tx ty px py : Nat} :
    (tx < (calculate_tile_grid w h ts).1 ∧ ty < (calculate_tile_grid w h ts).2 ∧
        inRect (tileRect w h ts tx ty) px py)
    ↔ (tx = px / ts ∧ ty = py / ts ∧ px < w ∧ py < h) := by
  constructor
  · rintro ⟨_, _, hx1, hx2, hy1, hy2⟩
    obtain ⟨htx, hpw⟩ := (span_mem_iff hts tx px w).mp ⟨hx1, hx2⟩
    obtain ⟨hty, hph⟩ := (span_mem_iff hts ty py h).mp ⟨hy1, hy2⟩
    exact ⟨htx, hty, hpw, hph⟩
  · rintro ⟨htx, hty, hpw, hph⟩
    obtain ⟨hx1, hx2⟩ := (span_mem_iff hts tx px w).mpr ⟨htx, hpw⟩
    obtain ⟨hy1, hy2⟩ := (span_mem_iff hts ty py h).mpr ⟨hty, hph⟩
    subst htx; subst hty
    exact ⟨div_lt_ceilDiv hts hpw, div_lt_ceilDiv hts hph, hx1, hx2, hy1, hy2⟩

/-- C1: for positive `width`, `height`, `tileSize`, the tile rectangles built in
the Tiled case (`ty` outer, `tx` inner, offsets `tx*tileSize`/`ty*tileSize`,
regions clipped by `min`) partition `[0,width) × [0,height)`: every in-bounds
pixel lies in exactly one grid cell's rectangle (no gap, no overlap), and every
pixel of any grid cell's rectangle is in bounds (the union is exactly the image). -/
theorem tile_grid_exact_cover (w h ts : Nat) (hw : 0 < w) (hh : 0 < h) (hts : 0 < ts) :
    (∀ px py, px < w → py < h →
        ∃! c : Nat × Nat, c.1 < (calculate_tile_grid w h ts).1 ∧
          c.2 < (calculate_tile_grid w h ts).2 ∧
          inRect (tileRect w h ts c.1 c.2) px py)
    ∧ (∀ tx ty px py, tx < (calculate_tile_grid w h ts).1 →
        ty < (calculate_tile_grid w h ts).2 →
        inRect (tileRect w h ts tx ty) px py → px < w ∧ py < h) := by
  constructor
  · intro px py hpw hph
    refine ⟨(px / ts, py / ts), (mem_tileRect_iff hts).mpr ⟨rfl, rfl, hpw, hph⟩, ?_⟩
    rintro ⟨tx, ty⟩ hc
    obtain ⟨htx, hty, -, -⟩ := (mem_tileRect_iff hts).mp hc
    simp only [Prod.mk.injEq]
    exact ⟨htx, hty⟩
  · intro tx ty px py h1 h2 h3
    obtain ⟨-, -, hpw, hph⟩ := (mem_tileRect_iff hts).mp ⟨h1, h2, h3⟩
    exact ⟨hpw, hph⟩

/-- Witness for `tile_grid_exact_cover` at the concrete dimensions
`width = 5`, `height = 3`, `tileSize = 2`. -/
theorem tile_grid_exact_cover_witness :
    (0 < 5 ∧ 0 < 3 ∧ 0 < 2) ∧
      ((∀ px py, px < 5 → py < 3 →
          ∃! c : Nat × Nat, c.1 < (calculate_tile_grid 5 3 2).1 ∧
            c.2 < (calculate_tile_grid 5 3 2).2 ∧
            inRect (tileRect 5 3 2 c.1 c.2) px py)
        ∧ (∀ tx ty px py, tx < (calculate_tile_grid 5 3 2).1 →
            ty < (calculate_tile_grid 5 3 2).2 →
            inRect (tileRect 5 3 2 tx ty) px py → px < 5 ∧ py < 3)) :=
  ⟨⟨by decide, by decide, by decide⟩,
    tile_grid_exact_cover 5 3 2 (by decide) (by decide) (by decide)⟩

/-- A PIL image: a pixel raster with explicit dimensions.  `pix i j` is the
colour at column `i`, row `j` of the tile's own coordinate system. -/
structure PyImage where
  width : Nat
  height : Nat
  pix : Nat → Nat → Pixel

/-- Model of `Image.new('RGB', size, color)` (rippyfish.py line 218): a canvas of the
given size uniformly filled with `color`. -/
def Image.new (size : Nat × Nat) (color : Pixel) : PyImage :=
  { width := size.1, height := size.2, pix := fun _ _ => color }

/-- The condition under which PIL `canvas.paste(tile, pos)` writes the canvas
pixel `(px, py)`: the pixel lies in the box of `tile` translated to `pos`, and
PIL clips the write to the canvas bounds `cw × ch`. -/
def writeCond (cw ch : Nat) (tile : PyImage) (pos : Nat × Nat) (px py : Nat) : Prop :=
  pos.1 ≤ px ∧ px < pos.1 + tile.width ∧ pos.2 ≤ py ∧ py < pos.2 + tile.height ∧
    px < cw ∧ py < ch

instance (cw ch : Nat) (tile : PyImage) (pos : Nat × Nat) (px py : Nat) :
    Decidable (writeCond cw ch tile pos px py) := by
  unfold writeCond; infer_instance

/-- PIL `canvas.paste(tile, pos)` (rippyfish.py line 255): writes the pixels of
`tile` into the canvas at offset `pos`, clipped to the canvas bounds; all other
pixels are unchanged. -/
def paste (canvas : PyImage) (tile : PyImage) (pos : Nat × Nat) : PyImage :=
  { canvas with
    pix := fun px py =>
      if writeCond canvas.width canvas.height tile pos px py then
        tile.pix (px - pos.1) (py - pos.2)
      else canvas.pix px py }

/-- One iteration of the `as_completed` loop (rippyfish.py lines 250-260) over
the state `(output_image, tiles_downloaded, tiles_failed)`: a successful tile
is pasted at its position and counted, a failed tile only bumps the failure
count. -/
def compositeStep (acc : PyImage × Nat × Nat) (e : (Nat × Nat) × Option PyImage) :
    PyImage × Nat × Nat :=
  match e with
  | (pos, some tile) => (paste acc.1 tile pos, acc.2.1 + 1, acc.2.2)
  | (_, none) => (acc.1, acc.2.1, acc.2.2 + 1)

/-- The whole `as_completed` loop, processing the tile outcomes in the order
given by the list. -/
def compositeLoop (acc : PyImage × Nat × Nat)
    (outs : List ((Nat × Nat) × Option PyImage)) : PyImage × Nat × Nat :=
  outs.foldl compositeStep acc

/-- The planned paste positions (rippyfish.py lines 224-237): row-major over
the grid, position `(tx*tile_size, ty*tile_size)` for cell `(tx, ty)`. -/
def tile_positions (width height tile_size : Nat) : List (Nat × Nat) :=
  (List.range (calculate_tile_grid width height tile_size).2).flatMap fun ty =>
    (List.range (calculate_tile_grid width height tile_size).1).map fun tx =>
      (tx * tile_size, ty * tile_size)

/-- The value (if any) that processing outcome `e` writes at canvas pixel
`(px, py)` of a `cw × ch` canvas. -/
def writesAt (cw ch : Nat) (e : (Nat × Nat) × Option PyImage) (px py : Nat) :
    Option Pixel :=
  match e with
  | (_, none) => none
  | (pos, some tile) =>
    if writeCond cw ch tile pos px py then some (tile.pix (px - pos.1) (py - pos.2))
    else none

/-- The value written at canvas pixel `(px, py)` by the LAST outcome in the
list that writes it (later pastes overwrite earlier ones), if any. -/
def lastWriteIn (cw ch : Nat) : List ((Nat × Nat) × Option PyImage) → Nat → Nat → Option Pixel
  | [], _, _ => none
  | e :: rest, px, py =>
    match lastWriteIn cw ch rest px py with
    | some v => some v
    | none => writesAt cw ch e px py

/-- The composite loop never changes the canvas dimensions. -/
theorem compositeLoop_dims (outs : List ((Nat × Nat) × Option PyImage)) :
    ∀ acc, (compositeLoop acc outs).1.width = acc.1.width ∧
      (compositeLoop acc outs).1.height = acc.1.height := by
  induction outs with
  | nil => intro acc; exact ⟨rfl, rfl⟩
  | cons e rest ih =>
    intro acc
    rcases e with ⟨pos, o⟩
    cases o with
    | none => simpa [compositeLoop, compositeStep] using ih _
    | some t => simpa [compositeLoop, compositeStep, paste] using ih _

/-- Pointwise description of the composite loop: each canvas pixel holds the
last value written there, or the original canvas value if no outcome wrote it. -/
theorem compositeLoop_pix (outs : List ((Nat × Nat) × Option PyImage)) :
    ∀ acc px py, (compositeLoop acc outs).1.pix px py =
      match lastWriteIn acc.1.width acc.1.height outs px py with
      | some v => v
      | none => acc.1.pix px py := by
  induction outs with
  | nil => intro acc px py; rfl
  | cons e rest ih =>
    intro acc px py
    rcases e with ⟨pos, o⟩
    cases o with
    | none =>
      have h := ih (compositeStep acc (pos, none)) px py
      simp only [compositeLoop, List.foldl_cons] at h ⊢
      rw [h]
      simp only [compositeStep, lastWriteIn, writesAt]
      cases hlw : lastWriteIn acc.1.width acc.1.height rest px py <;> simp [hlw]
    | some t =>
      have h := ih (compositeStep acc (pos, some t)) px py
      simp only [compositeLoop, List.foldl_cons] at h ⊢
      rw [h]
      simp only [compositeStep, paste, lastWriteIn, writesAt]
      cases hlw : lastWriteIn acc.1.width acc.1.height rest px py with
      | some v => simp
      | none =>
        by_cases hc : writeCond acc.1.width acc.1.height t pos px py <;> simp [hc]

/-- The success / failure counters of the composite loop count exactly the
successful and the failed outcomes. -/
theorem compositeLoop_counts (outs : List ((Nat × Nat) × Option PyImage)) :
    ∀ acc, (compositeLoop acc outs).2.1 = acc.2.1 + outs.countP (fun e => e.2.isSome) ∧
      (compositeLoop acc outs).2.2 = acc.2.2 + outs.countP (fun e => e.2.isNone) := by
  induction outs with
  | nil => intro acc; simp [compositeLoop]
  | cons e rest ih =>
    intro acc
    rcases e with ⟨pos, o⟩
    obtain ⟨ih1, ih2⟩ := ih (compositeStep acc (pos, o))
    cases o with
    | none =>
      simp only [compositeLoop, List.foldl_cons] at ih1 ih2 ⊢
      rw [ih1, ih2]
      simp [compositeStep, List.countP_cons]
      omega
    | some t =>
      simp only [compositeLoop, List.foldl_cons] at ih1 ih2 ⊢
      rw [ih1, ih2]
      simp [compositeStep, List.countP_cons]
      omega

/-- Two outcomes write disjoint sets of canvas pixels. -/
def disjointWrites (cw ch : Nat) (e₁ e₂ : (Nat × Nat) × Option PyImage) : Prop :=
  ∀ px py, writesAt cw ch e₁ px py = none ∨ writesAt cw ch e₂ px py = none

theorem disjointWrites_symm {cw ch : Nat} {e₁ e₂ : (Nat × Nat) × Option PyImage}
    (h : disjointWrites cw ch e₁ e₂) : disjointWrites cw ch e₂ e₁ :=
  fun px py => (h px py).symm

/-- If no outcome writes the pixel, the last write is `none`. -/
theorem lastWriteIn_eq_none {cw ch : Nat} {outs : List ((Nat × Nat) × Option PyImage)}
    {px py : Nat} (h : ∀ e ∈ outs, writesAt cw ch e px py = none) :
    lastWriteIn cw ch outs px py = none := by
  induction outs with
  | nil => rfl
  | cons e rest ih =>
    have h1 := h e (List.mem_cons_self e rest)
    have h2 := ih fun e' he' => h e' (List.mem_cons_of_mem e he')
    simp [lastWriteIn, h1, h2]

/-- Under pairwise disjointness, an outcome that writes the pixel determines
the last write. -/
theorem lastWriteIn_eq_some {cw ch : Nat} {outs : List ((Nat × Nat) × Option PyImage)}
    (hd : outs.Pairwise (disjointWrites cw ch)) {e : (Nat × Nat) × Option PyImage}
    {px py : Nat} {v : Pixel} (he : e ∈ outs) (hw : writesAt cw ch e px py = some v) :
    lastWriteIn cw ch outs px py = some v := by
  induction outs with
  | nil => cases he
  | cons e' rest ih =>
    obtain ⟨hd1, hd2⟩ := List.pairwise_cons.mp hd
    rcases List.mem_cons.mp he with he | he
    · subst he
      have hnone : lastWriteIn cw ch rest px py = none := by
        apply lastWriteIn_eq_none
        intro e'' he''
        rcases hd1 e'' he'' px py with h | h
        · rw [hw] at h; cases h
        · exact h
      simp [lastWriteIn, hnone, hw]
    · have := ih hd2 he
      simp [lastWriteIn, this]

/-- Under pairwise disjoint writes, the final value at each pixel does not
depend on the processing order of the outcomes. -/
theorem lastWriteIn_perm {cw ch : Nat} {l₁ l₂ : List ((Nat × Nat) × Option PyImage)}
    (hp : l₁.Perm l₂) (hd : l₁.Pairwise (disjointWrites cw ch)) (px py : Nat) :
    lastWriteIn cw ch l₁ px py = lastWriteIn cw ch l₂ px py := by
  induction hp with
  | nil => rfl
  | cons x p ih =>
    have := ih (List.Pairwise.of_cons hd)
    simp only [lastWriteIn]
    rw [this]
  | swap x y l =>
    have hxy : disjointWrites cw ch y x :=
      (List.pairwise_cons.mp hd).1 x (List.mem_cons_self x l)
    cases hlw : lastWriteIn cw ch l px py with
    | some v => simp [lastWriteIn, hlw]
    | none =>
      rcases hxy px py with h | h
      · cases hwx : writesAt cw ch x px py <;> simp [lastWriteIn, hlw, hwx, h]
      · cases hwy : writesAt cw ch y px py <;> simp [lastWriteIn, hlw, hwy, h]
  | trans p₁ p₂ ih₁ ih₂ =>
    rw [ih₁ hd, ih₂ ((p₁.pairwise_iff (fun h => disjointWrites_symm h)).mp hd)]

/-- Membership characterisation of the planned paste positions: exactly the
points `(tx*ts, ty*ts)` for grid cells `(tx, ty)`. -/
theorem mem_tile_positions {w h ts : Nat} {p : Nat × Nat} :
    p ∈ tile_positions w h ts ↔
      ∃ tx ty, tx < (calculate_tile_grid w h ts).1 ∧
        ty < (calculate_tile_grid w h ts).2 ∧ p = (tx * ts, ty * ts) := by
  unfold tile_positions
  simp only [List.mem_flatMap, List.mem_map, List.mem_range]
  constructor
  · rintro ⟨ty, hty, tx, htx, rfl⟩
    exact ⟨tx, ty, htx, hty, rfl⟩
  · rintro ⟨tx, ty, htx, hty, rfl⟩
    exact ⟨ty, hty, tx, htx, rfl⟩

/-- The planned paste positions are pairwise distinct. -/
theorem tile_positions_pairwise_ne {w h ts : Nat} (hts : 0 < ts) :
    (tile_positions w h ts).Pairwise (· ≠ ·) := by
  unfold tile_positions
  rw [List.pairwise_flatMap]
  constructor
  · intro ty _
    rw [List.pairwise_map]
    refine (List.pairwise_lt_range _).imp ?_
    intro a b hab
    simp only [Ne, Prod.mk.injEq, not_and]
    intro hx
    exact absurd (Nat.eq_of_mul_eq_mul_right hts hx) (Nat.ne_of_lt hab)
  · refine (List.pairwise_lt_range _).imp ?_
    intro ty₁ ty₂ hlt
    simp only [List.mem_map, List.mem_range]
    rintro x ⟨tx₁, -, rfl⟩ y ⟨tx₂, -, rfl⟩
    simp only [Ne, Prod.mk.injEq, not_and]
    intro _ hy
    exact absurd (Nat.eq_of_mul_eq_mul_right hts hy) (Nat.ne_of_lt hlt)

/-- An outcome that writes some pixel carries a tile image satisfying the
write condition there. -/
theorem writesAt_ne_none {cw ch : Nat} {e : (Nat × Nat) × Option PyImage} {px py : Nat}
    (h : writesAt cw ch e px py ≠ none) :
    ∃ t, e.2 = some t ∧ writeCond cw ch t e.1 px py ∧
      writesAt cw ch e px py = some (t.pix (px - e.1.1) (py - e.1.2)) := by
  rcases e with ⟨pos, o⟩
  cases o with
  | none => simp [writesAt] at h
  | some t =>
    by_cases hc : writeCond cw ch t pos px py
    · exact ⟨t, rfl, hc, by simp [writesAt, hc]⟩
    · simp [writesAt, hc] at h

/-- Under the exact-dimension hypothesis, a write by the tile planned at
position `p` pins down the grid cell: `p = (px/ts*ts, py/ts*ts)`. -/
theorem write_determines_cell {w h ts : Nat} (hts : 0 < ts) {p : Nat × Nat}
    (hp : p ∈ tile_positions w h ts) {t : PyImage}
    (htw : t.width = min ts (w - p.1)) (hth : t.height = min ts (h - p.2))
    {px py : Nat} (hc : writeCond w h t p px py) :
    p = (px / ts * ts, py / ts * ts) := by
  obtain ⟨tx, ty, htx, hty, rfl⟩ := mem_tile_positions.mp hp
  obtain ⟨h1, h2, h3, h4, -, -⟩ := hc
  simp only at h1 h2 h3 h4 htw hth
  rw [htw] at h2
  rw [hth] at h4
  obtain ⟨hx, -⟩ := (span_mem_iff hts tx px w).mp ⟨h1, h2⟩
  obtain ⟨hy, -⟩ := (span_mem_iff hts ty py h).mp ⟨h3, h4⟩
  rw [hx, hy]

/-- Write regions of distinct planned tiles are pairwise disjoint, provided
each decoded tile has exactly its planned region's dimensions. -/
theorem tiled_outcomes_pairwise {w h ts : Nat} (hts : 0 < ts)
    (f : Nat × Nat → Option PyImage)
    (hdims : ∀ p ∈ tile_positions w h ts, ∀ t, f p = some t →
      t.width = min ts (w - p.1) ∧ t.height = min ts (h - p.2)) :
    ((tile_positions w h ts).map fun p => (p, f p)).Pairwise (disjointWrites w h) := by
  rw [List.pairwise_map]
  refine List.Pairwise.imp_of_mem ?_ (tile_positions_pairwise_ne hts)
  intro p q hp hq hne px py
  by_contra hcon
  push_neg at hcon
  obtain ⟨h1, h2⟩ := hcon
  obtain ⟨t₁, ht₁, hc₁, -⟩ := writesAt_ne_none h1
  obtain ⟨t₂, ht₂, hc₂, -⟩ := writesAt_ne_none h2
  obtain ⟨hw₁, hh₁⟩ := hdims p hp t₁ ht₁
  obtain ⟨hw₂, hh₂⟩ := hdims q hq t₂ ht₂
  have e₁ := write_determines_cell hts hp hw₁ hh₁ hc₁
  have e₂ := write_determines_cell hts hq hw₂ hh₂ hc₂
  exact hne (e₁.trans e₂.symm)

/-- The Tiled branch of `download_and_composite_image` (rippyfish.py lines
210-260), given the per-position fetch outcome `f`: allocate the white
`width × height` canvas, then paste each successful tile at its planned
position, tallying successes and failures.  The outcomes are processed here in
planned order; arbitrary completion orders are related to it by permutation. -/
def tiledRun (width height tile_size : Nat) (f : (Nat × Nat) → Option PyImage) :
    PyImage × Nat × Nat :=
  compositeLoop (Image.new (width, height) white, 0, 0)
    ((tile_positions width height tile_size).map fun p => (p, f p))

/-- Pointwise value of the Tiled-branch canvas. -/
theorem tiledRun_pix (w h ts : Nat) (f : (Nat × Nat) → Option PyImage) (px py : Nat) :
    (tiledRun w h ts f).1.pix px py =
      match lastWriteIn w h ((tile_positions w h ts).map fun p => (p, f p)) px py with
      | some v => v
      | none => white :=
  compositeLoop_pix _ _ px py

/-- For a tile with exactly its planned dimensions, the PIL write condition at
a planned position coincides with membership in the planned rectangle (the
clip to canvas bounds is vacuous because planned rectangles are in bounds). -/
theorem writeCond_iff_cover {w h ts : Nat} (hts : 0 < ts) {p : Nat × Nat}
    (hp : p ∈ tile_positions w h ts) {t : PyImage}
    (htw : t.width = min ts (w - p.1)) (hth : t.height = min ts (h - p.2))
    {px py : Nat} :
    writeCond w h t p px py ↔
      (p.1 ≤ px ∧ px < p.1 + min ts (w - p.1) ∧
        p.2 ≤ py ∧ py < p.2 + min ts (h - p.2)) := by
  obtain ⟨tx, ty, htx, hty, rfl⟩ := mem_tile_positions.mp hp
  simp only [writeCond, htw, hth]
  constructor
  · rintro ⟨a, b, c, d, -, -⟩
    exact ⟨a, b, c, d⟩
  · rintro ⟨a, b, c, d⟩
    have hx := (span_mem_iff hts tx px w).mp ⟨a, b⟩
    have hy := (span_mem_iff hts ty py h).mp ⟨c, d⟩
    exact ⟨a, b, c, d, hx.2, hy.2⟩

/-- A planned rectangle that contains a pixel determines the grid cell. -/
theorem cover_determines_cell {w h ts : Nat} (hts : 0 < ts) {p : Nat × Nat}
    (hp : p ∈ tile_positions w h ts) {px py : Nat}
    (hc : p.1 ≤ px ∧ px < p.1 + min ts (w - p.1) ∧
      p.2 ≤ py ∧ py < p.2 + min ts (h - p.2)) :
    p = (px / ts * ts, py / ts * ts) := by
  obtain ⟨tx, ty, htx, hty, rfl⟩ := mem_tile_positions.mp hp
  obtain ⟨a, b, c, d⟩ := hc
  simp only at a b c d
  obtain ⟨hx, -⟩ := (span_mem_iff hts tx px w).mp ⟨a, b⟩
  obtain ⟨hy, -⟩ := (span_mem_iff hts ty py h).mp ⟨c, d⟩
  rw [hx, hy]

/-- C3: fix an all-success assignment of decoded tiles (each with its planned
dimensions) and force an arbitrary subset `g` of tiles to fail.  The resulting
canvas equals the all-success canvas except that each failed tile's planned
rectangle keeps the white background; the failure counter equals the number of
forced failures and the success counter counts the rest; and when every tile
fails the canvas is still entirely white rather than an error. -/
theorem tiled_partial_failure (w h ts : Nat) (hw : 0 < w) (hh : 0 < h) (hts : 0 < ts)
    (imgs : Nat × Nat → PyImage)
    (hdims : ∀ p ∈ tile_positions w h ts,
      (imgs p).width = min ts (w - p.1) ∧ (imgs p).height = min ts (h - p.2))
    (g : Nat × Nat → Bool) :
    (∀ px py,
      (tiledRun w h ts fun p => if g p then none else some (imgs p)).1.pix px py =
        if ∃ p ∈ tile_positions w h ts, g p = true ∧
            p.1 ≤ px ∧ px < p.1 + min ts (w - p.1) ∧
            p.2 ≤ py ∧ py < p.2 + min ts (h - p.2) then white
        else (tiledRun w h ts fun p => some (imgs p)).1.pix px py)
    ∧ (tiledRun w h ts fun p => if g p then none else some (imgs p)).2.2 =
        (tile_positions w h ts).countP g
    ∧ (tiledRun w h ts fun p => if g p then none else some (imgs p)).2.1 =
        (tile_positions w h ts).countP (fun p => !g p)
    ∧ ((∀ p ∈ tile_positions w h ts, g p = true) →
        ∀ px py,
          (tiledRun w h ts fun p => if g p then none else some (imgs p)).1.pix px py =
            white) := by
  have hdimsM : ∀ p ∈ tile_positions w h ts, ∀ t,
      (if g p then none else some (imgs p)) = some t →
      t.width = min ts (w - p.1) ∧ t.height = min ts (h - p.2) := by
    intro p hp t ht
    by_cases hg : g p
    · simp [hg] at ht
    · simp only [hg, if_neg, Bool.false_eq_true, ite_false, Option.some.injEq] at ht
      subst ht
      exact hdims p hp
  have hdimsA : ∀ p ∈ tile_positions w h ts, ∀ t,
      (some (imgs p) : Option PyImage) = some t →
      t.width = min ts (w - p.1) ∧ t.height = min ts (h - p.2) := by
    intro p hp t ht
    rw [Option.some.injEq] at ht
    subst ht
    exact hdims p hp
  have PM := tiled_outcomes_pairwise hts _ hdimsM
  have PA := tiled_outcomes_pairwise hts _ hdimsA
  refine ⟨?_, ?_, ?_, ?_⟩
  · -- pointwise comparison with the all-success canvas
    intro px py
    rw [tiledRun_pix, tiledRun_pix]
    by_cases hcov : ∃ p ∈ tile_positions w h ts, g p = true ∧
        p.1 ≤ px ∧ px < p.1 + min ts (w - p.1) ∧
        p.2 ≤ py ∧ py < p.2 + min ts (h - p.2)
    · rw [if_pos hcov]
      obtain ⟨p₀, hp₀, hg₀, hc₀⟩ := hcov
      have hnone : lastWriteIn w h
          ((tile_positions w h ts).map fun p => (p, if g p then none else some (imgs p)))
          px py = none := by
        apply lastWriteIn_eq_none
        intro e he
        obtain ⟨q, hq, rfl⟩ := List.mem_map.mp he
        by_contra hne
        obtain ⟨t, ht, hc, -⟩ := writesAt_ne_none hne
        have hgq : g q = false := by
          by_cases hgq : g q
          · simp [hgq] at ht
          · simpa using hgq
        rw [hgq] at ht
        simp only [Bool.false_eq_true, ite_false, Option.some.injEq] at ht
        subst ht
        have hcq := (writeCond_iff_cover hts hq (hdims q hq).1 (hdims q hq).2).mp hc
        have e₁ := cover_determines_cell hts hp₀ hc₀
        have e₂ := cover_determines_cell hts hq hcq
        rw [e₁.trans e₂.symm] at hg₀
        rw [hg₀] at hgq
        cases hgq
      rw [hnone]
    · rw [if_neg hcov]
      by_cases hex : ∃ q ∈ tile_positions w h ts, writeCond w h (imgs q) q px py
      · obtain ⟨q, hq, hcq⟩ := hex
        have hgq : g q = false := by
          by_contra hgq
          rw [Bool.not_eq_false] at hgq
          exact hcov ⟨q, hq, hgq,
            (writeCond_iff_cover hts hq (hdims q hq).1 (hdims q hq).2).mp hcq⟩
        have hwA : writesAt w h (q, some (imgs q)) px py =
            some ((imgs q).pix (px - q.1) (py - q.2)) := by
          simp [writesAt, hcq]
        have hA := lastWriteIn_eq_some PA (List.mem_map.mpr ⟨q, hq, rfl⟩) hwA
        have hwM : writesAt w h (q, if g q then none else some (imgs q)) px py =
            some ((imgs q).pix (px - q.1) (py - q.2)) := by
          rw [hgq]
          simpa using hwA
        have hM := lastWriteIn_eq_some PM (List.mem_map.mpr ⟨q, hq, rfl⟩) hwM
        rw [hA, hM]
      · have hA : lastWriteIn w h
            ((tile_positions w h ts).map fun p => (p, some (imgs p))) px py = none := by
          apply lastWriteIn_eq_none
          intro e he
          obtain ⟨q, hq, rfl⟩ := List.mem_map.mp he
          by_contra hne
          obtain ⟨t, ht, hc, -⟩ := writesAt_ne_none hne
          rw [Option.some.injEq] at ht
          subst ht
          exact hex ⟨q, hq, hc⟩
        have hM : lastWriteIn w h
            ((tile_positions w h ts).map fun p =>
              (p, if g p then none else some (imgs p))) px py = none := by
          apply lastWriteIn_eq_none
          intro e he
          obtain ⟨q, hq, rfl⟩ := List.mem_map.mp he
          by_contra hne
          obtain ⟨t, ht, hc, -⟩ := writesAt_ne_none hne
          have hgq : g q = false := by
            by_cases hgq : g q
            · simp [hgq] at ht
            · simpa using hgq
          rw [hgq] at ht
          simp only [Bool.false_eq_true, ite_false, Option.some.injEq] at ht
          subst ht
          exact hex ⟨q, hq, hc⟩
        rw [hA, hM]
  · -- the failure counter counts the forced failures
    have hc := (compositeLoop_counts
      ((tile_positions w h ts).map fun p => (p, if g p then none else some (imgs p)))
      (Image.new (w, h) white, 0, 0)).2
    rw [tiledRun, hc, List.countP_map]
    rw [Nat.zero_add]
    apply List.countP_congr
    intro p _
    by_cases hg : g p <;> simp [hg]
  · -- the success counter counts the rest
    have hc := (compositeLoop_counts
      ((tile_positions w h ts).map fun p => (p, if g p then none else some (imgs p)))
      (Image.new (w, h) white, 0, 0)).1
    rw [tiledRun, hc, List.countP_map]
    rw [Nat.zero_add]
    apply List.countP_congr
    intro p _
    by_cases hg : g p <;> simp [hg]
  · -- all failures: the canvas is entirely the white background
    intro hall px py
    rw [tiledRun_pix]
    have hnone : lastWriteIn w h
        ((tile_positions w h ts).map fun p => (p, if g p then none else some (imgs p)))
        px py = none := by
      apply lastWriteIn_eq_none
      intro e he
      obtain ⟨q, hq, rfl⟩ := List.mem_map.mp he
      rw [hall q hq]
      rfl
    rw [hnone]

/-- A 1×1 black tile, used as a concrete decoded raster in witnesses. -/
def unitTile : PyImage := { width := 1, height := 1, pix := fun _ _ => (0, 0, 0) }

/-- Witness for `tiled_partial_failure` at `width = height = tileSize = 1` with
every tile forced to fail. -/
theorem tiled_partial_failure_witness :
    (0 < 1 ∧ 0 < 1 ∧ 0 < 1) ∧
      (tiledRun 1 1 1 fun p =>
          if (fun _ : Nat × Nat => true) p then none
          else some ((fun _ : Nat × Nat => unitTile) p)).2.2 =
        (tile_positions 1 1 1).countP (fun _ : Nat × Nat => true) :=
  ⟨⟨Nat.one_pos, Nat.one_pos, Nat.one_pos⟩,
    (tiled_partial_failure 1 1 1 Nat.one_pos Nat.one_pos Nat.one_pos
      (fun _ => unitTile) (by decide) (fun _ => true)).2.1⟩

/-- Outcomes written entirely outside the canvas bounds write nothing: PIL
clips every paste to the canvas. -/
theorem writesAt_out_of_bounds {cw ch : Nat} (e : (Nat × Nat) × Option PyImage)
    {px py : Nat} (hout : cw ≤ px ∨ ch ≤ py) : writesAt cw ch e px py = none := by
  rcases e with ⟨pos, o⟩
  cases o with
  | none => rfl
  | some t =>
    have hnc : ¬ writeCond cw ch t pos px py := by
      rintro ⟨-, -, -, -, h5, h6⟩
      omega
    simp [writesAt, hnc]

/-- No sequence of pastes ever modifies a pixel outside the canvas bounds. -/
theorem compositeLoop_out_of_bounds (outs : List ((Nat × Nat) × Option PyImage))
    (acc : PyImage × Nat × Nat) (px py : Nat)
    (hout : acc.1.width ≤ px ∨ acc.1.height ≤ py) :
    (compositeLoop acc outs).1.pix px py = acc.1.pix px py := by
  rw [compositeLoop_pix]
  rw [lastWriteIn_eq_none fun e _ => writesAt_out_of_bounds e hout]

/-- C5: for a fixed Tiled plan and a fixed assignment `f` of per-tile outcomes
(each decoded tile having its planned dimensions), any two processing orders
of the outcomes produce bitwise-identical canvases — same dimensions, same
pixel values everywhere, same success/failure counts.  In particular the
result is a pure function of the plan and the per-tile decoded pixels,
independent of arrival order, and re-running against a fresh white canvas
reproduces it exactly. -/
theorem tiled_order_independence (w h ts : Nat) (hw : 0 < w) (hh : 0 < h) (hts : 0 < ts)
    (f : Nat × Nat → Option PyImage)
    (hdims : ∀ p ∈ tile_positions w h ts, ∀ t, f p = some t →
      t.width = min ts (w - p.1) ∧ t.height = min ts (h - p.2))
    (l₁ l₂ : List ((Nat × Nat) × Option PyImage))
    (h₁ : l₁.Perm ((tile_positions w h ts).map fun p => (p, f p)))
    (h₂ : l₂.Perm ((tile_positions w h ts).map fun p => (p, f p))) :
    ((compositeLoop (Image.new (w, h) white, 0, 0) l₁).1.width =
        (compositeLoop (Image.new (w, h) white, 0, 0) l₂).1.width)
    ∧ ((compositeLoop (Image.new (w, h) white, 0, 0) l₁).1.height =
        (compositeLoop (Image.new (w, h) white, 0, 0) l₂).1.height)
    ∧ (∀ px py, (compositeLoop (Image.new (w, h) white, 0, 0) l₁).1.pix px py =
        (compositeLoop (Image.new (w, h) white, 0, 0) l₂).1.pix px py)
    ∧ ((compositeLoop (Image.new (w, h) white, 0, 0) l₁).2 =
        (compositeLoop (Image.new (w, h) white, 0, 0) l₂).2) := by
  have P := tiled_outcomes_pairwise hts f hdims
  have P₁ : l₁.Pairwise (disjointWrites w h) :=
    (h₁.pairwise_iff fun hab => disjointWrites_symm hab).mpr P
  have h₁₂ : l₁.Perm l₂ := h₁.trans h₂.symm
  refine ⟨?_, ?_, ?_, ?_⟩
  · rw [(compositeLoop_dims l₁ _).1, (compositeLoop_dims l₂ _).1]
  · rw [(compositeLoop_dims l₁ _).2, (compositeLoop_dims l₂ _).2]
  · intro px py
    rw [compositeLoop_pix l₁ _ px py, compositeLoop_pix l₂ _ px py]
    simp only [show (Image.new (w, h) white).width = w from rfl,
      show (Image.new (w, h) white).height = h from rfl]
    rw [lastWriteIn_perm h₁₂ P₁ px py]
  · have c₁ := compositeLoop_counts l₁ (Image.new (w, h) white, 0, 0)
    have c₂ := compositeLoop_counts l₂ (Image.new (w, h) white, 0, 0)
    have e₁ : List.countP (fun e => e.2.isSome) l₁ = List.countP (fun e => e.2.isSome) l₂ :=
      List.Perm.countP_eq _ h₁₂
    have e₂ : List.countP (fun e => e.2.isNone) l₁ = List.countP (fun e => e.2.isNone) l₂ :=
      List.Perm.countP_eq _ h₁₂
    have g₁ := Prod.ext_iff.mpr ⟨c₁.1.trans (e₁ ▸ c₂.1.symm), c₁.2.trans (e₂ ▸ c₂.2.symm)⟩
    exact g₁

/-- Witness for `tiled_order_independence` at `width = height = tileSize = 1`
with the single tile failing, both orders being the planned order. -/
theorem tiled_order_independence_witness :
    (0 < 1 ∧ 0 < 1 ∧ 0 < 1) ∧
      (compositeLoop (Image.new (1, 1) white, 0, 0)
          ((tile_positions 1 1 1).map fun p => (p, (fun _ : Nat × Nat => (none : Option PyImage)) p))).2 =
        (compositeLoop (Image.new (1, 1) white, 0, 0)
          ((tile_positions 1 1 1).map fun p => (p, (fun _ : Nat × Nat => (none : Option PyImage)) p))).2 :=
  ⟨⟨Nat.one_pos, Nat.one_pos, Nat.one_pos⟩,
    (tiled_order_independence 1 1 1 Nat.one_pos Nat.one_pos Nat.one_pos
      (fun _ => none) (fun _ _ t ht => Option.noConfusion ht) _ _
      (List.Perm.refl _) (List.Perm.refl _)).2.2.2⟩

/-- C6: in the Tiled case the canvas is allocated at exactly `width × height`
pixels filled white `(255,255,255)` before any tile is written; pastes never
change the canvas dimensions; no sequence of tile writes ever touches a pixel
outside `[0,width) × [0,height)`; and every planned tile rectangle — including
the clipped ones when `width` or `height` is not divisible by `tileSize` —
lies entirely inside the canvas bounds. -/
theorem tiled_canvas_safety (w h ts : Nat) (hw : 0 < w) (hh : 0 < h) (hts : 0 < ts) :
    ((Image.new (w, h) white).width = w ∧ (Image.new (w, h) white).height = h ∧
      ∀ px py, (Image.new (w, h) white).pix px py = (255, 255, 255))
    ∧ (∀ outs : List ((Nat × Nat) × Option PyImage),
        (compositeLoop (Image.new (w, h) white, 0, 0) outs).1.width = w ∧
        (compositeLoop (Image.new (w, h) white, 0, 0) outs).1.height = h)
    ∧ (∀ (outs : List ((Nat × Nat) × Option PyImage)) px py, w ≤ px ∨ h ≤ py →
        (compositeLoop (Image.new (w, h) white, 0, 0) outs).1.pix px py = (255, 255, 255))
    ∧ (∀ tx ty, tx < (calculate_tile_grid w h ts).1 → ty < (calculate_tile_grid w h ts).2 →
        (tileRect w h ts tx ty).x + (tileRect w h ts tx ty).w ≤ w ∧
        (tileRect w h ts tx ty).y + (tileRect w h ts tx ty).h ≤ h) := by
  refine ⟨⟨rfl, rfl, fun _ _ => rfl⟩, ?_, ?_, ?_⟩
  · intro outs
    exact compositeLoop_dims outs _
  · intro outs px py hout
    exact compositeLoop_out_of_bounds outs _ px py hout
  · intro tx ty htx hty
    have hx := mul_lt_of_lt_ceilDiv hts htx
    have hy := mul_lt_of_lt_ceilDiv hts hty
    constructor
    · show tx * ts + min ts (w - tx * ts) ≤ w
      omega
    · show ty * ts + min ts (h - ty * ts) ≤ h
      omega

/-- Witness for `tiled_canvas_safety` at `width = 5`, `height = 3`,
`tileSize = 2` (a grid with clipped last column). -/
theorem tiled_canvas_safety_witness :
    (0 < 5 ∧ 0 < 3 ∧ 0 < 2) ∧
      (∀ tx ty, tx < (calculate_tile_grid 5 3 2).1 → ty < (calculate_tile_grid 5 3 2).2 →
        (tileRect 5 3 2 tx ty).x + (tileRect 5 3 2 tx ty).w ≤ 5 ∧
        (tileRect 5 3 2 tx ty).y + (tileRect 5 3 2 tx ty).h ≤ 3) :=
  ⟨⟨by decide, by decide, by decide⟩,
    (tiled_canvas_safety 5 3 2 (by decide) (by decide) (by decide)).2.2.2⟩

/-- The Python exceptions that `download_and_composite_image` can raise
internally; its `except` clause catches them all and returns `False`. -/
inductive PyErr where
  | keyError
  | indexError
  | zeroDivisionError
  | valueError
  | httpError
deriving DecidableEq

/-- One entry of the metadata's `tiles` list; only its optional `width` field
is read (rippyfish.py line 179). -/
structure TileEntry where
  width : Option Int
deriving DecidableEq

/-- The parsed `info.json` object, restricted to the fields the program reads:
`width`, `height` (required lookups) and the optional `tiles` list. -/
structure Metadata where
  width : Option Int
  height : Option Int
  tiles : Option (List TileEntry)
deriving DecidableEq

/-- Model of `metadata['width']`, `metadata['height']` (rippyfish.py lines 175-176):
required lookups raising `KeyError` when absent. -/
def getDims (m : Metadata) : Except PyErr (Int × Int) :=
  match m.width, m.height with
  | some w, some h => Except.ok (w, h)
  | _, _ => Except.error PyErr.keyError

/-- Model of the tile-size lookup (rippyfish.py line 179), Python
`metadata.get('tiles', [{}])[0].get('width', 256)`:
256 when `tiles` is absent or its first entry has no `width`; `IndexError`
when `tiles` is present but an empty list. -/
def getTileSize (m : Metadata) : Except PyErr Int :=
  match m.tiles with
  | none => Except.ok 256
  | some [] => Except.error PyErr.indexError
  | some (t :: _) => Except.ok (t.width.getD 256)

/-- The two fetch strategies of the plan. -/
inductive Strategy where
  | fullImage
  | tiled
deriving DecidableEq

/-- The strategy decision (rippyfish.py lines 191-193): after the metadata
lookups, `FullImage` when `tiles` is missing/empty or both dimensions are at
most 2000, `Tiled` otherwise. -/
def chooseStrategy (m : Metadata) : Except PyErr Strategy := do
  let (w, h) ← getDims m
  let _ ← getTileSize m
  if (m.tiles.getD []).isEmpty ∨ (w ≤ 2000 ∧ h ≤ 2000) then
    return Strategy.fullImage
  else
    return Strategy.tiled

/-- The body of `download_and_composite_image` (rippyfish.py lines 170-270),
with the two network effects supplied as parameters: `fullFetched` is the
decoded raster of the single full-image request (`none` = HTTP/decode
failure, which aborts the image), and `tileFetch p` is the decoded raster of
the tile requested at planned position `p` (`none` = that tile failed).  The
result carries the saved image and, in the Tiled case, the
`(tiles_downloaded, tiles_failed)` counters. -/
def modelRun (m : Metadata) (fullFetched : Option PyImage)
    (tileFetch : Nat × Nat → Option PyImage) : Except PyErr (PyImage × Nat × Nat) := do
  let (w, h) ← getDims m
  let ts ← getTileSize m
  let strat ← chooseStrategy m
  match strat with
  | Strategy.fullImage =>
    match fullFetched with
    | none => Except.error PyErr.httpError
    | some img => Except.ok (img, 0, 0)
  | Strategy.tiled =>
    if ts = 0 then Except.error PyErr.zeroDivisionError
    else if w < 0 ∨ h < 0 then Except.error PyErr.valueError
    else Except.ok (tiledRun w.toNat h.toNat ts.toNat tileFetch)

/-- The Boolean result of `download_and_composite_image`: `True` on success,
`False` when any internal exception was caught (rippyfish.py lines 272-274). -/
def download_and_composite_image (m : Metadata) (fullFetched : Option PyImage)
    (tileFetch : Nat × Nat → Option PyImage) : Bool :=
  match modelRun m fullFetched tileFetch with
  | Except.ok _ => true
  | Except.error _ => false

/-- The metadata parsing prefix of `download_and_composite_image`
(rippyfish.py lines 175-179): `(width, height, tile_size)`. -/
def parse_metadata (m : Metadata) : Except PyErr (Int × Int × Int) := do
  let (w, h) ← getDims m
  let ts ← getTileSize m
  Except.ok (w, h, ts)

/-- Model of the region string of rippyfish.py line 233: the four numbers
joined by commas. -/
def region_string (x y rw rh : Nat) : String :=
  toString x ++ "," ++ toString y ++ "," ++ toString rw ++ "," ++ toString rh

/-- Model of the tile URL of rippyfish.py line 234: the base URL, the region
string and the fixed IIIF tail. -/
def tile_url (base : String) (x y rw rh : Nat) : String :=
  base ++ "/" ++ region_string x y rw rh ++ "/full/0/default.jpg"

/-- Model of the full-image URL of rippyfish.py line 196. -/
def full_url (base : String) : String :=
  base ++ "/full/full/0/default.png"

/-- The `tile_urls` list built by the grid loops (rippyfish.py lines 224-236). -/
def tile_urls (base : String) (width height tile_size : Nat) : List String :=
  (List.range (calculate_tile_grid width height tile_size).2).flatMap fun ty =>
    (List.range (calculate_tile_grid width height tile_size).1).map fun tx =>
      tile_url base (tx * tile_size) (ty * tile_size)
        (min tile_size (width - tx * tile_size))
        (min tile_size (height - ty * tile_size))

/-- The characters of the metadata endpoint suffix `'/info.json'`. -/
def infoJsonChars : List Char := "/info.json".toList

/-- The left-to-right scan of Python `str.replace('/info.json', '')`: while
`skip` is positive we are inside an already-matched occurrence and emit
nothing; at `skip = 0`, a position where the pattern starts consumes the whole
occurrence, any other character is copied. -/
def replaceScan : Nat → List Char → List Char
  | skip + 1, _ :: rest => replaceScan skip rest
  | _, [] => []
  | 0, c :: rest =>
    if infoJsonChars.isPrefixOf (c :: rest) then
      replaceScan (infoJsonChars.length - 1) rest
    else c :: replaceScan 0 rest

/-- Model of rippyfish.py line 182, `base_url = info_url.replace('/info.json', '')`:
removes every occurrence of `'/info.json'`. -/
def base_url_of (info_url : String) : String :=
  String.mk (replaceScan 0 info_url.data)

/-- Modelled from the spec's words for comparison: "the derived base URL
formed by removing the metadata endpoint suffix" — removal of one trailing
`'/info.json'`, leaving the rest of the URL unchanged. -/
def strip_suffix_spec (u : String) : String :=
  if infoJsonChars.isSuffixOf u.data then
    String.mk (u.data.take (u.data.length - infoJsonChars.length))
  else u

/-- Python `'/info.json' in s`, the occurrence test used to state when
suffix-removal and replace-all coincide. -/
def containsInfoJson : List Char → Bool
  | [] => false
  | c :: rest => infoJsonChars.isPrefixOf (c :: rest) || containsInfoJson rest

/-- C2: whenever the decision point is reached (both dimensions present and
`tiles` not the empty list, which raises at the earlier tile-size lookup),
the planner chooses `FullImage` exactly when the
descriptor declares no tile configuration or both dimensions are at most
2000, and otherwise chooses `Tiled`; the choice is a pure function of the
descriptor. -/
theorem planner_decision (m : Metadata) (w h : Int)
    (hw : m.width = some w) (hh : m.height = some h) (ht : m.tiles ≠ some []) :
    (chooseStrategy m = Except.ok Strategy.fullImage ↔
      (m.tiles = none ∨ (w ≤ 2000 ∧ h ≤ 2000)))
    ∧ (chooseStrategy m = Except.ok Strategy.fullImage ∨
        chooseStrategy m = Except.ok Strategy.tiled) := by
  rcases hmt : m.tiles with - | (- | ⟨t, l⟩)
  · constructor
    · simp [chooseStrategy, getDims, getTileSize, hw, hh, hmt, bind, Except.bind, pure, Except.pure]
    · left
      simp [chooseStrategy, getDims, getTileSize, hw, hh, hmt, bind, Except.bind, pure, Except.pure]
  · exact absurd hmt ht
  · by_cases hle : w ≤ 2000 ∧ h ≤ 2000
    · constructor
      · simp [chooseStrategy, getDims, getTileSize, hw, hh, hmt, hle, bind, Except.bind, pure, Except.pure]
      · left
        simp [chooseStrategy, getDims, getTileSize, hw, hh, hmt, hle, bind, Except.bind, pure, Except.pure]
    · constructor
      · simp [chooseStrategy, getDims, getTileSize, hw, hh, hmt, hle, bind, Except.bind, pure, Except.pure]
      · right
        simp [chooseStrategy, getDims, getTileSize, hw, hh, hmt, hle, bind, Except.bind, pure, Except.pure]

/-- Witness for `planner_decision` at a small descriptor with no tile
configuration. -/
theorem planner_decision_witness :
    (({ width := some 100, height := some 100, tiles := none } : Metadata).width
        = some 100 ∧
      ({ width := some 100, height := some 100, tiles := none } : Metadata).height
        = some 100 ∧
      ({ width := some 100, height := some 100, tiles := none } : Metadata).tiles
        ≠ some []) ∧
    ((chooseStrategy { width := some 100, height := some 100, tiles := none } =
        Except.ok Strategy.fullImage ↔
        (({ width := some 100, height := some 100, tiles := none } : Metadata).tiles
            = none ∨ ((100 : Int) ≤ 2000 ∧ (100 : Int) ≤ 2000)))
      ∧ (chooseStrategy { width := some 100, height := some 100, tiles := none } =
          Except.ok Strategy.fullImage ∨
        chooseStrategy { width := some 100, height := some 100, tiles := none } =
          Except.ok Strategy.tiled)) :=
  ⟨⟨rfl, rfl, by decide⟩, planner_decision _ 100 100 rfl rfl (by decide)⟩

/-- C10: a metadata object whose `tiles` field is present but an empty list
makes the tile-size lookup raise `IndexError` before the FullImage/Tiled
decision, so the run aborts with that error — even when the full-image fetch
would have succeeded — and the image is reported as failed (`False`). -/
theorem empty_tiles_aborts (m : Metadata) (ff : Option PyImage)
    (tf : Nat × Nat → Option PyImage) (w h : Int)
    (hw : m.width = some w) (hh : m.height = some h) (ht : m.tiles = some []) :
    getTileSize m = Except.error PyErr.indexError ∧
    modelRun m ff tf = Except.error PyErr.indexError ∧
    download_and_composite_image m ff tf = false := by
  have h1 : getTileSize m = Except.error PyErr.indexError := by
    simp [getTileSize, ht]
  have h2 : modelRun m ff tf = Except.error PyErr.indexError := by
    simp [modelRun, getDims, hw, hh, h1, bind, Except.bind]
  refine ⟨h1, h2, ?_⟩
  simp [download_and_composite_image, h2]

/-- Witness for `empty_tiles_aborts`: a small metadata with `tiles = []`
fails even though the full-image fetch would succeed. -/
theorem empty_tiles_aborts_witness :
    (({ width := some 100, height := some 100, tiles := some [] } : Metadata).width
        = some 100 ∧
      ({ width := some 100, height := some 100, tiles := some [] } : Metadata).height
        = some 100 ∧
      ({ width := some 100, height := some 100, tiles := some [] } : Metadata).tiles
        = some []) ∧
    (getTileSize { width := some 100, height := some 100, tiles := some [] } =
        Except.error PyErr.indexError ∧
      modelRun { width := some 100, height := some 100, tiles := some [] }
          (some unitTile) (fun _ => none) = Except.error PyErr.indexError ∧
      download_and_composite_image { width := some 100, height := some 100, tiles := some [] }
          (some unitTile) (fun _ => none) = false) :=
  ⟨⟨rfl, rfl, rfl⟩, empty_tiles_aborts _ (some unitTile) (fun _ => none) 100 100 rfl rfl rfl⟩

/-- C4 counterexample: a metadata object with the required fields present but
zero (non-positive) is NOT rejected — parsing succeeds with the default tile
size, and the whole run succeeds, contradicting the claim that non-positive
`width`/`height` fail with a parse error. -/
theorem nonpositive_dimensions_accepted :
    parse_metadata { width := some 0, height := some 0, tiles := none } =
      Except.ok (0, 0, 256)
    ∧ download_and_composite_image { width := some 0, height := some 0, tiles := none }
        (some unitTile) (fun _ => none) = true :=
  ⟨by decide, by decide⟩

/-- C4 amended: the metadata lookup fails exactly when `width` or `height` is
absent (or `tiles` is present but empty); present non-positive values are
accepted without any validation; and when the descriptor omits a tile-size
declaration the tile size defaults to 256. -/
theorem metadata_parse_behaviour (m : Metadata) :
    ((∃ e, parse_metadata m = Except.error e) ↔
      (m.width = none ∨ m.height = none ∨ m.tiles = some []))
    ∧ (∀ w h : Int, m.width = some w → m.height = some h → m.tiles = none →
        parse_metadata m = Except.ok (w, h, 256)) := by
  constructor
  · rcases hmw : m.width with - | w <;> rcases hmh : m.height with - | h <;>
      rcases hmt : m.tiles with - | (- | ⟨t, l⟩) <;>
      simp [parse_metadata, getDims, getTileSize, hmw, hmh, hmt, bind, Except.bind]
  · intro w h hw hh htl
    simp [parse_metadata, getDims, getTileSize, hw, hh, htl, bind, Except.bind]

/-- Witness for `metadata_parse_behaviour`: the default tile size at a
well-formed metadata without a `tiles` declaration. -/
theorem metadata_parse_behaviour_witness :
    parse_metadata { width := some 7, height := some 9, tiles := none } =
      Except.ok (7, 9, 256) :=
  (metadata_parse_behaviour _).2 7 9 rfl rfl rfl

/-- A full-image raster whose dimensions disagree with the descriptor's
`1000 × 1000`. -/
def mismatchedRaster : PyImage := { width := 999, height := 998, pix := fun _ _ => (0, 0, 0) }

/-- C8 counterexample: in the FullImage case the decoded raster is saved
exactly as received — a server raster of `999 × 998` for a `1000 × 1000`
descriptor is NOT validated or cropped to `1000 × 1000`, contradicting the
claim's crop-on-mismatch clause. -/
theorem full_image_mismatch_saved_uncropped :
    (modelRun { width := some 1000, height := some 1000, tiles := none }
        (some mismatchedRaster) (fun _ => none)).map (fun r => (r.1.width, r.1.height)) =
      Except.ok (999, 998)
    ∧ ((999, 998) : Nat × Nat) ≠ (1000, 1000) :=
  ⟨by decide, by decide⟩

/-- C8 amended: in the FullImage case a successful fetch's decoded raster is
used directly as the saved canvas — no separate background fill, and also no
dimension validation or cropping: the raster is saved unchanged whatever its
dimensions. -/
theorem full_image_used_directly (m : Metadata) (w h : Int) (img : PyImage)
    (tf : Nat × Nat → Option PyImage)
    (hw : m.width = some w) (hh : m.height = some h) (ht : m.tiles ≠ some [])
    (hcond : m.tiles.getD [] = [] ∨ (w ≤ 2000 ∧ h ≤ 2000)) :
    modelRun m (some img) tf = Except.ok (img, 0, 0) := by
  obtain ⟨ts, hts⟩ : ∃ ts, getTileSize m = Except.ok ts := by
    rcases hmt : m.tiles with - | (- | ⟨t, l⟩)
    · exact ⟨256, by simp [getTileSize, hmt]⟩
    · exact absurd hmt ht
    · exact ⟨t.width.getD 256, by simp [getTileSize, hmt]⟩
  have hcond' : (m.tiles.getD []).isEmpty = true ∨ (w ≤ 2000 ∧ h ≤ 2000) := by
    rcases hcond with hc | hc
    · exact Or.inl (List.isEmpty_iff.mpr hc)
    · exact Or.inr hc
  have hstrat : chooseStrategy m = Except.ok Strategy.fullImage := by
    simp only [chooseStrategy, getDims, hw, hh, hts, bind, Except.bind]
    simp [pure, Except.pure]
    intro hne
    rcases hcond' with hc | hc
    · exact absurd (List.isEmpty_iff.mp hc) hne
    · exact hc
  simp [modelRun, getDims, hw, hh, hts, hstrat, bind, Except.bind]

/-- Witness for `full_image_used_directly` at a `1000 × 1000` descriptor with
no tile configuration. -/
theorem full_image_used_directly_witness :
    modelRun { width := some 1000, height := some 1000, tiles := none }
        (some unitTile) (fun _ => none) = Except.ok (unitTile, 0, 0) :=
  full_image_used_directly _ 1000 1000 unitTile _ rfl rfl (by decide) (Or.inl rfl)

/-- C7: every URL in the tile request list is exactly
`{base}/{offsetX},{offsetY},{regionWidth},{regionHeight}/full/0/default.jpg`
for its grid cell, and the full-image URL ends in `/full/full/0/default.png`. -/
theorem request_url_format :
    (∀ (base : String) (w h ts : Nat) (u : String),
      u ∈ tile_urls base w h ts ↔
        ∃ tx ty, tx < (calculate_tile_grid w h ts).1 ∧
          ty < (calculate_tile_grid w h ts).2 ∧
          u = base ++ "/" ++ toString (tx * ts) ++ "," ++ toString (ty * ts) ++ "," ++
              toString (min ts (w - tx * ts)) ++ "," ++ toString (min ts (h - ty * ts)) ++
              "/full/0/default.jpg")
    ∧ (∀ base : String, ∃ pre : String, full_url base = pre ++ "/full/full/0/default.png") := by
  constructor
  · intro base w h ts u
    unfold tile_urls
    simp only [List.mem_flatMap, List.mem_map, List.mem_range]
    constructor
    · rintro ⟨ty, hty, tx, htx, rfl⟩
      refine ⟨tx, ty, htx, hty, ?_⟩
      simp [tile_url, region_string, String.append_assoc]
    · rintro ⟨tx, ty, htx, hty, rfl⟩
      refine ⟨ty, hty, tx, htx, ?_⟩
      simp [tile_url, region_string, String.append_assoc]
  · intro base
    exact ⟨base, rfl⟩

/-- The pattern `'/info.json'` has no non-trivial border: no proper non-empty prefix of it
is also a suffix.  This is what makes removal well-behaved at the
suffix boundary. -/
theorem infoJson_no_border :
    ∀ m, m < infoJsonChars.length → 1 ≤ m →
      infoJsonChars.drop m ≠ infoJsonChars.take (infoJsonChars.length - m) := by
  decide

/-- The pattern `'/info.json'` is not a prefix of `q ++ '/info.json'` for any
non-empty `q` that does not contain the pattern. -/
theorem infoJson_not_prefix_append {c : Char} {p : List Char}
    (h1 : infoJsonChars.isPrefixOf (c :: p) = false) :
    infoJsonChars.isPrefixOf ((c :: p) ++ infoJsonChars) = false := by
  by_contra hcon
  rw [Bool.not_eq_false] at hcon
  have hpre : infoJsonChars <+: (c :: p) ++ infoJsonChars :=
    List.isPrefixOf_iff_prefix.mp hcon
  rcases Nat.lt_or_ge (c :: p).length infoJsonChars.length with hm | hm
  · -- the pattern would need a non-trivial border
    obtain ⟨tail, ht⟩ := hpre
    have htake := congrArg (List.take infoJsonChars.length) ht
    rw [List.take_left] at htake
    rw [List.take_append_eq_append_take,
      List.take_of_length_le (Nat.le_of_lt hm)] at htake
    have hdrop := congrArg (List.drop (c :: p).length) htake.symm
    rw [List.drop_append_eq_append_drop, List.drop_length, Nat.sub_self,
      List.drop_zero, List.nil_append] at hdrop
    exact infoJson_no_border (c :: p).length hm (by simp) hdrop.symm
  · -- the pattern would occur at the head of `c :: p`
    have hq : infoJsonChars <+: (c :: p) :=
      List.prefix_of_prefix_length_le hpre (List.prefix_append _ _) hm
    rw [List.isPrefixOf_iff_prefix.mpr hq] at h1
    cases h1

/-- When a character list `p` contains no occurrence of `'/info.json'`, the
replace-all scan of `p ++ '/info.json'` removes exactly the trailing pattern. -/
theorem replaceScan_strips_suffix (p : List Char) (hp : containsInfoJson p = false) :
    replaceScan 0 (p ++ infoJsonChars) = p := by
  induction p with
  | nil => decide
  | cons c p' ih =>
    rw [containsInfoJson, Bool.or_eq_false_iff] at hp
    obtain ⟨h1, h2⟩ := hp
    have hkey := infoJson_not_prefix_append h1
    rw [List.cons_append] at hkey
    rw [List.cons_append, replaceScan, if_neg (by rw [hkey]; exact Bool.false_ne_true)]
    rw [ih h2]

/-- C9 counterexample: Python `str.replace('/info.json', '')` removes EVERY
occurrence, not only a trailing suffix — on a URL with an interior
`'/info.json'` the computed base URL differs from suffix removal, which would
leave the rest of the URL unchanged. -/
theorem base_url_not_suffix_removal :
    base_url_of ("http://h/info.json/v2/info.json") = "http://h/v2"
    ∧ strip_suffix_spec ("http://h/info.json/v2/info.json") = "http://h/info.json/v2"
    ∧ base_url_of ("http://h/info.json/v2/info.json") ≠
        strip_suffix_spec ("http://h/info.json/v2/info.json") :=
  ⟨by decide, by decide, by decide⟩

/-- C9 amended: the base URL is obtained by removing every occurrence of
`'/info.json'` from the metadata URL; when the URL ends in `'/info.json'` and
contains no other occurrence, this coincides with removing the suffix and
leaving the rest of the URL unchanged. -/
theorem base_url_strips_unique_suffix (p : List Char)
    (hp : containsInfoJson p = false) :
    base_url_of (String.mk (p ++ infoJsonChars)) = String.mk p := by
  unfold base_url_of
  exact congrArg String.mk (replaceScan_strips_suffix p hp)

/-- Witness for `base_url_strips_unique_suffix` on a concrete metadata URL
whose only occurrence of `'/info.json'` is the trailing one. -/
theorem base_url_strips_unique_suffix_witness :
    containsInfoJson ("http://example.com/iiif/abc".toList) = false ∧
      base_url_of (String.mk ("http://example.com/iiif/abc".toList ++ infoJsonChars)) =
        String.mk ("http://example.com/iiif/abc".toList) :=
  ⟨by decide, base_url_strips_unique_suffix _ (by decide)⟩

end RippyFish
